import Mathlib

/-!
Verification development for the `aiohttp_auth` library: a ticket
authentication codec (issue / validate / reissue of signed, expiring
identity tokens) and an ordered ACL permission evaluator with two
interchangeable context representations.  The ACL evaluator, group
resolution helper, authorization-policy entry points and ticket codec are
modelled here as executable Lean functions; the theorems below establish
the behavioural properties stated in the specification.
-/

namespace AiohttpAuth

/-- Effect of an ACL rule, mirroring `aiohttp_auth.permissions.Permission`:
either `Allow` or `Deny`. -/
inductive Permission where
  | Allow
  | Deny
deriving DecidableEq

/-- Group identifiers, mirroring `aiohttp_auth.permissions.Group` plus plain
string group names.  The two reserved pseudo-groups `Everyone` and
`AuthenticatedUser` are distinct constructors, so they can never collide with
an ordinary group literally named "Everyone". -/
inductive Group where
  | Everyone
  | AuthenticatedUser
  | user (name : String)
deriving DecidableEq

/-- An ACL rule tuple `(effect, principal, permissions)` as held by the naive
context: the permission collection is the verbatim sequence from the caller. -/
abbrev AclTuple := Permission × Group × List String

/-- Modelled from the spec: the first-match-wins linear scan at the heart of
`acl.get_permitted` and `NaiveACLContext.permit` (module `aiohttp_auth.acl.acl`,
not present in the source tree; behaviour fixed by `pytests/test_acl.py` and
`pytests/test_autz_acl_policy.py`).  A rule is relevant iff its principal is a
member of the effective group set and the requested permission is in its
permission collection; the first relevant rule decides, default deny. -/
def scanAcl (gs : Finset Group) (permission : String) : List AclTuple → Bool
  | [] => false
  | r :: rest =>
    if r.2.1 ∈ gs ∧ permission ∈ r.2.2 then
      r.1 = Permission.Allow
    else
      scanAcl gs permission rest

/-- Modelled from the spec: `acl.get_permitted` evaluated against an already
resolved effective group set.  A `none` group set (the group callback returned
`None`) denies immediately; otherwise the rules are scanned in order. -/
def get_permitted (groups : Option (Finset Group)) (permission : String)
    (context : List AclTuple) : Bool :=
  match groups with
  | none => false
  | some gs => scanAcl gs permission context

/-- Relevance test of a single rule, used to phrase the first-match property:
the principal belongs to the effective groups and the permission is governed
by the rule. -/
def relevant (gs : Finset Group) (permission : String) (r : AclTuple) : Bool :=
  decide (r.2.1 ∈ gs) && decide (permission ∈ r.2.2)

/-- Modelled from the spec: the group resolution helper of
`acl.get_user_groups` — a `None` raw-group lookup propagates as `none`;
otherwise the raw groups are extended with `Everyone` always, and with
`AuthenticatedUser` plus the identity itself when an identity is present. -/
def user_groups (identity : Option String) (raw : Option (List String)) :
    Option (Finset Group) :=
  match raw with
  | none => none
  | some gs =>
    let base : Finset Group := (gs.map Group.user).toFinset ∪ {Group.Everyone}
    match identity with
    | none => some base
    | some i => some (base ∪ {Group.AuthenticatedUser, Group.user i})

/-- Modelled from the spec: `AbstractACLContext.extended_user_groups` of the
autz ACL policy, the second group-expansion entry point.  Unlike
`acl.get_user_groups` it does not add the identity string itself to the
effective set: `test_correct_groups_returned_for_authenticated_user` in
`pytests/test_autz_acl_policy.py` asserts the identity is absent after
expansion, while the same-named test in `pytests/test_acl.py` asserts it is
present for `acl.get_user_groups`. -/
def extended_user_groups (identity : Option String)
    (raw : Option (List String)) : Option (Finset Group) :=
  match raw with
  | none => none
  | some gs =>
    let base : Finset Group := (gs.map Group.user).toFinset ∪ {Group.Everyone}
    match identity with
    | none => some base
    | some _ => some (base ∪ {Group.AuthenticatedUser})

/-- Modelled from the spec: `autz.policy.acl.NaiveACLContext`, which stores
the source rule list verbatim. -/
structure NaiveACLContext where
  context : List AclTuple

/-- Modelled from the spec: `NaiveACLContext.permit` — linear scan of the
stored rules; `none` groups deny immediately. -/
def NaiveACLContext.permit (c : NaiveACLContext) (_identity : Option String)
    (groups : Option (Finset Group)) (permission : String) : Bool :=
  match groups with
  | none => false
  | some gs => scanAcl gs permission c.context

/-- Modelled from the spec: `autz.policy.acl.ACLContext`, which normalizes the
rule list once at construction — each rule's permission sequence is converted
to a set (observed in `test_autz_acl_context`: the stored context is a tuple
of triples whose third component is a `set`). -/
structure ACLContext where
  context : List (Permission × Group × Finset String)

/-- Modelled from the spec: construction of the precompiled context from a
source rule list. -/
def ACLContext.ofList (src : List AclTuple) : ACLContext :=
  ⟨src.map (fun r => (r.1, r.2.1, r.2.2.toFinset))⟩

/-- Scan over the normalized rules, permission membership now tested against
the precompiled permission set. -/
def scanAclSet (gs : Finset Group) (permission : String) :
    List (Permission × Group × Finset String) → Bool
  | [] => false
  | r :: rest =>
    if r.2.1 ∈ gs ∧ permission ∈ r.2.2 then
      r.1 = Permission.Allow
    else
      scanAclSet gs permission rest

/-- Modelled from the spec: `ACLContext.permit` — same algorithm over the
normalized representation. -/
def ACLContext.permit (c : ACLContext) (_identity : Option String)
    (groups : Option (Finset Group)) (permission : String) : Bool :=
  match groups with
  | none => false
  | some gs => scanAclSet gs permission c.context

/-- Modelled from the spec: a ticket authentication policy
(`auth.TktAuthentication`, backed by the external `ticket_auth` factory; not
present in the source tree).  It holds the server secret, the two configured
durations, and the keyed MAC used to sign tickets, together with the fixed
byte length of MAC digests (32 hex characters for the HMAC-MD5 digest of the
observed implementation).  Bytes are naturals below 256; the MAC is kept as an
explicit function field so its cryptographic properties appear as hypotheses
rather than axioms. -/
structure TktAuthentication where
  secret : List Nat
  max_age : Nat
  reissue_time : Nat
  mac : List Nat → List Nat → List Nat
  sigLen : Nat

/-- Big-endian 8-byte serialization of an integer timestamp (seconds since
the epoch), truncated to 64 bits as the fixed-width time field of the ticket
wire format. -/
def encTime (t : Nat) : List Nat :=
  [t / 2 ^ 56 % 256, t / 2 ^ 48 % 256, t / 2 ^ 40 % 256, t / 2 ^ 32 % 256,
   t / 2 ^ 24 % 256, t / 2 ^ 16 % 256, t / 2 ^ 8 % 256, t % 256]

/-- Big-endian decoding of the time field. -/
def decTime (bs : List Nat) : Nat :=
  bs.foldl (fun acc b => acc * 256 + b) 0

/-- Modelled from the spec: `issue(identity)` at time `now` — the signature is
the MAC over the serialized `(issue_time, identity)` payload, and the token is
the signature followed by the payload. -/
def issue (A : TktAuthentication) (now : Nat) (identity : List Nat) :
    List Nat :=
  A.mac A.secret (encTime now ++ identity) ++ (encTime now ++ identity)

/-- Modelled from the spec: token parsing.  A token shorter than a signature
plus a time field is malformed; otherwise it splits into the embedded
signature, the raw time field and the identity remainder. -/
def parseTok (A : TktAuthentication) (tok : List Nat) :
    Option (List Nat × List Nat × List Nat) :=
  if A.sigLen + 8 ≤ tok.length then
    some (tok.take A.sigLen, (tok.drop A.sigLen).take 8,
          tok.drop (A.sigLen + 8))
  else none

/-- Modelled from the spec: `validate(token)` at time `now` — `none` when
parsing fails, when the recomputed MAC over the embedded payload differs from
the embedded signature, or when `now - issue_time > max_age`; the embedded
identity otherwise.  Totality of this function is the fail-closed contract:
malformed input yields `none`, never an exception. -/
def validate (A : TktAuthentication) (now : Nat) (tok : List Nat) :
    Option (List Nat) :=
  match parseTok A tok with
  | none => none
  | some (sig, timeBytes, identity) =>
    if sig = A.mac A.secret (timeBytes ++ identity) ∧
        now - decTime timeBytes ≤ A.max_age then
      some identity
    else none

/-- Modelled from the spec: `should_reissue(token)` — true iff the token is
currently valid and its remaining validity `max_age - (now - issue_time)` is
strictly below `reissue_time`. -/
def should_reissue (A : TktAuthentication) (now : Nat) (tok : List Nat) :
    Bool :=
  (validate A now tok).isSome &&
    (match parseTok A tok with
     | none => false
     | some (_, timeBytes, _) =>
       decide (A.max_age - (now - decTime timeBytes) < A.reissue_time))

/-- Flip bit `k` (0 ≤ k < 8) of byte `i` of a token. -/
def flipBit (tok : List Nat) (i k : Nat) : List Nat :=
  tok.set i ((tok.getD i 0) ^^^ (1 <<< k))

/-- The per-request carrier of the authentication state: the ticket stored by
the surrounding session or cookie transport, if any. -/
structure Session where
  ticket : Option (List Nat)

/-- Modelled from the spec: `auth.remember(request, identity)` — store a
freshly issued ticket for the identity in the request's session. -/
def remember (A : TktAuthentication) (now : Nat) (_s : Session)
    (identity : List Nat) : Session :=
  ⟨some (issue A now identity)⟩

/-- Modelled from the spec: `auth.get_auth(request)` — validate the stored
ticket, yielding the identity or `none`. -/
def get_auth (A : TktAuthentication) (now : Nat) (s : Session) :
    Option (List Nat) :=
  s.ticket.bind (validate A now)

/-- The exact message of the configuration error raised by the autz ACL
policy when no rule context is available, asserted verbatim in
`test_autz_acl_no_context_raises_error`. -/
def noContextError : String :=
  "Context should be specified globally through acl autz policy or passed as a parameter of permit function or autz_required decorator."

/-- Modelled from the spec: the autz ACL authorization policy
(`autz.policy.acl.AbstractACLAutzPolicy`), holding an optional globally
configured rule context. -/
structure ACLAutzPolicy where
  context : Option (List AclTuple)

/-- Modelled from the spec: the policy's `permit(identity, permission,
context)` — a local context overrides the global one; with neither, a
`RuntimeError` (modelled as `Except.error`) carries the explanatory message;
otherwise the identity's raw groups (the `acl_groups` callback result, passed
here as an explicit input) are extended and the ACL scan decides. -/
def ACLAutzPolicy.permit (p : ACLAutzPolicy) (identity : Option String)
    (raw : Option (List String)) (permission : String)
    (localContext : Option (List AclTuple)) : Except String Bool :=
  match localContext.orElse (fun _ => p.context) with
  | none => Except.error noContextError
  | some ctx =>
    Except.ok (get_permitted (extended_user_groups identity raw) permission ctx)

/-- A request as seen by the ACL decorator: the effective group set the acl
middleware's callback resolves for it (`none` when the callback returned
`None`). -/
structure Request where
  groups : Option (Finset Group)

/-- `get_permitted` the way the decorator calls it: groups resolved from the
request, then the ACL scan. -/
def get_permitted_req (request : Request) (permission : String)
    (context : List AclTuple) : Bool :=
  get_permitted request.groups permission context

/-- Outcome of an ACL-guarded handler: either the wrapped handler's response,
or the `HTTPForbidden` raised by the guard. -/
inductive HandlerOutcome (ρ : Type) where
  | response (r : ρ)
  | forbidden
deriving DecidableEq

/-- The wrapper built by `acl_required(permission, context)`
(`aiohttp_auth/acl/decorators.py`): check the permission against the context
for the incoming request; invoke the wrapped handler only when permitted,
raise `HTTPForbidden` otherwise. -/
def acl_required {ρ : Type} (permission : String) (context : List AclTuple)
    (func : Request → ρ) (request : Request) : HandlerOutcome ρ :=
  if get_permitted_req request permission context then
    HandlerOutcome.response (func request)
  else
    HandlerOutcome.forbidden

/-- Modelled from the spec: the per-request entry point `auth.get_auth` — the
auth middleware installs the policy on the request; without it a
`RuntimeError` is raised. -/
def auth_get_auth (policy : Option TktAuthentication) (now : Nat)
    (s : Session) : Except String (Option (List Nat)) :=
  match policy with
  | none => Except.error "auth_middleware not installed"
  | some A => Except.ok (get_auth A now s)

/-- Modelled from the spec: the per-request entry point `auth.remember`. -/
def auth_remember (policy : Option TktAuthentication) (now : Nat)
    (s : Session) (identity : List Nat) : Except String Session :=
  match policy with
  | none => Except.error "auth_middleware not installed"
  | some A => Except.ok (remember A now s identity)

/-- Modelled from the spec: the per-request entry point `auth.forget` —
clears the stored ticket. -/
def auth_forget (policy : Option TktAuthentication) (_s : Session) :
    Except String Session :=
  match policy with
  | none => Except.error "auth_middleware not installed"
  | some _ => Except.ok ⟨none⟩

/-- Modelled from the spec: the per-request entry point
`acl.get_user_groups` — the acl middleware installs the groups callback on
the request; without it a `RuntimeError` is raised, otherwise the callback's
raw groups are expanded into the effective group set. -/
def acl_get_user_groups
    (callback : Option (Option String → Option (List String)))
    (identity : Option String) : Except String (Option (Finset Group)) :=
  match callback with
  | none => Except.error "acl_middleware not installed"
  | some cb => Except.ok (user_groups identity (cb identity))

/-- Modelled from the spec: the per-request entry point `autz.permit` — the
autz middleware installs the authorization policy on the application; without
it a `RuntimeError` is raised (message asserted verbatim in
`test_no_middleware_installed` of `pytests/test_autz_acl_policy.py`). -/
def autz_permit (policy : Option ACLAutzPolicy) (identity : Option String)
    (raw : Option (List String)) (permission : String)
    (localContext : Option (List AclTuple)) : Except String Bool :=
  match policy with
  | none => Except.error "autz_middleware not installed."
  | some p => p.permit identity raw permission localContext

/-- A small concrete ticket policy used to evaluate the codec theorems on
explicit inputs: a two-byte secret, `max_age` 10, `reissue_time` 3, and a
one-byte checksum standing in for the MAC. -/
def toyA : TktAuthentication where
  secret := [1, 2]
  max_age := 10
  reissue_time := 3
  mac := fun s m => [(s.sum + m.sum) % 256]
  sigLen := 1

/-- C1: the ACL permit operation scans the rules in sequence order; a rule is
relevant iff its principal is in the effective group set and the permission is
in its permission set; the result is true iff the first relevant rule allows,
false if it denies or no rule is relevant.  Concretely, for rules
`(Allow, Everyone, x) :: (Deny, g1, x)` with groups Everyone and g1 the
permission x is granted, and with the rules reversed it is denied. -/
theorem permit_first_relevant_wins (gs : Finset Group) (permission : String)
    (rules : List AclTuple) :
    (get_permitted (some gs) permission rules =
      match rules.find? (relevant gs permission) with
      | some r => decide (r.1 = Permission.Allow)
      | none => false) ∧
    get_permitted (some {Group.Everyone, Group.user "g1"}) "x"
      [(Permission.Allow, Group.Everyone, ["x"]),
       (Permission.Deny, Group.user "g1", ["x"])] = true ∧
    get_permitted (some {Group.Everyone, Group.user "g1"}) "x"
      [(Permission.Deny, Group.user "g1", ["x"]),
       (Permission.Allow, Group.Everyone, ["x"])] = false := by
  refine ⟨?_, by decide, by decide⟩
  show scanAcl gs permission rules = _
  induction rules with
  | nil => rfl
  | cons r rest ih =>
    by_cases h : r.2.1 ∈ gs ∧ permission ∈ r.2.2
    · have hrel : relevant gs permission r = true := by
        simp [relevant, h.1, h.2]
      simp [scanAcl, List.find?_cons, hrel, h]
    · have hrel : relevant gs permission r = false := by
        simp only [relevant, Bool.and_eq_false_iff, decide_eq_false_iff_not]
        by_cases h1 : r.2.1 ∈ gs
        · exact Or.inr (fun h2 => h (And.intro h1 h2))
        · exact Or.inl h1
      simp [scanAcl, List.find?_cons, hrel, h, ih]

/-- C2: for every source rule list and every query triple, the naive context
(verbatim rule list, linear scan) and the precompiled context (permission
sequences normalized to sets at construction) return identical permit
results. -/
theorem naive_precompiled_permit_equiv (src : List AclTuple)
    (identity : Option String) (groups : Option (Finset Group))
    (permission : String) :
    (NaiveACLContext.mk src).permit identity groups permission =
      (ACLContext.ofList src).permit identity groups permission := by
  cases groups with
  | none => rfl
  | some gs =>
    show scanAcl gs permission src = scanAclSet gs permission _
    induction src with
    | nil => rfl
    | cons r rest ih =>
      by_cases h : r.2.1 ∈ gs ∧ permission ∈ r.2.2
      · simp [scanAcl, scanAclSet, ACLContext.ofList, List.mem_toFinset, h]
      · have h' : ¬(r.2.1 ∈ gs ∧ permission ∈ r.2.2.toFinset) := by
          simpa [List.mem_toFinset] using h
        simp only [scanAcl, scanAclSet, ACLContext.ofList, List.map_cons]
        rw [if_neg h, if_neg h']
        exact ih

/-- C5 (counterexample to the claim as stated): the autz policy's
`extended_user_groups` does not add the identity string to the effective
set — for identity "some_user" with raw groups ["group0", "group1"] the
resulting set omits `Group.user "some_user"` — so the claimed
identity-membership does not hold for both entry points. -/
theorem extended_groups_identity_counterexample :
    extended_user_groups (some "some_user") (some ["group0", "group1"]) =
      some ((["group0", "group1"].map Group.user).toFinset ∪
        {Group.Everyone} ∪ {Group.AuthenticatedUser}) ∧
    Group.user "some_user" ∉
      (["group0", "group1"].map Group.user).toFinset ∪
        {Group.Everyone} ∪ {Group.AuthenticatedUser} := by
  constructor
  · decide
  · decide

/-- C5 (amended): for every identity-or-none and raw group list, both
group-resolution entry points yield `none` when the raw lookup is `none`;
otherwise `acl.get_user_groups` yields the raw groups plus `Everyone`, with
`AuthenticatedUser` and the identity itself added exactly when an identity
is present, while the autz policy's `extended_user_groups` yields the raw
groups plus `Everyone`, with only `AuthenticatedUser` added when an identity
is present — it does not add the identity itself; for an unauthenticated
request the two entry points agree. -/
theorem effective_group_set_spec (i : String) (gs : List String) (x : Group) :
    user_groups (some i) none = none ∧
    user_groups none none = none ∧
    extended_user_groups (some i) none = none ∧
    extended_user_groups none none = none ∧
    extended_user_groups none (some gs) = user_groups none (some gs) ∧
    (∃ S, user_groups none (some gs) = some S ∧
      (x ∈ S ↔ x ∈ gs.map Group.user ∨ x = Group.Everyone)) ∧
    (∃ S, user_groups (some i) (some gs) = some S ∧
      (x ∈ S ↔ x ∈ gs.map Group.user ∨ x = Group.Everyone ∨
        x = Group.AuthenticatedUser ∨ x = Group.user i)) ∧
    (∃ S, extended_user_groups (some i) (some gs) = some S ∧
      (x ∈ S ↔ x ∈ gs.map Group.user ∨ x = Group.Everyone ∨
        x = Group.AuthenticatedUser)) := by
  refine ⟨rfl, rfl, rfl, rfl, rfl, ⟨_, rfl, ?_⟩, ⟨_, rfl, ?_⟩, ⟨_, rfl, ?_⟩⟩
  · simp [Finset.mem_union, List.mem_toFinset]
  · simp only [Finset.mem_union, Finset.mem_insert, Finset.mem_singleton,
      List.mem_toFinset]
    tauto
  · simp only [Finset.mem_union, Finset.mem_singleton, List.mem_toFinset]
    tauto

/-- C6: a `none` effective group set (the group lookup returned `None`)
denies every permission regardless of the rules, including a rule that would
allow the permission to `Everyone`. -/
theorem permit_none_groups_denies (permission : String)
    (rules : List AclTuple) :
    get_permitted none permission rules = false ∧
    get_permitted none permission
      ((Permission.Allow, Group.Everyone, [permission]) :: rules) = false :=
  ⟨rfl, rfl⟩

/-- C8: when no rule context is available — none passed to `permit` and none
configured globally on the ACL authorization policy — the check yields the
distinct configuration error with its explanatory message, an outcome
distinguishable from every ordinary boolean authorization result; with a
context available the check returns an ordinary boolean. -/
theorem autz_no_context_raises (identity : Option String)
    (raw : Option (List String)) (permission : String)
    (ctx : List AclTuple) :
    ACLAutzPolicy.permit ⟨none⟩ identity raw permission none =
      Except.error noContextError ∧
    (∀ b : Bool,
      (Except.error noContextError : Except String Bool) ≠ Except.ok b) ∧
    ACLAutzPolicy.permit ⟨some ctx⟩ identity raw permission none =
      Except.ok (get_permitted (extended_user_groups identity raw)
        permission ctx) :=
  ⟨rfl, fun _ h => Except.noConfusion h, rfl⟩

/-- C9: the `acl_required(permission, context)` wrapper invokes the wrapped
handler (returning its result) exactly when `get_permitted` grants the
permission; when it does not, the wrapper yields `HTTPForbidden` and the
wrapped handler is never invoked — the outcome is independent of the
handler. -/
theorem acl_required_spec {ρ : Type} (permission : String)
    (context : List AclTuple) (request : Request) (f g : Request → ρ) :
    (get_permitted_req request permission context = true →
      acl_required permission context f request =
        HandlerOutcome.response (f request)) ∧
    (get_permitted_req request permission context = false →
      acl_required permission context f request = HandlerOutcome.forbidden ∧
      acl_required permission context f request =
        acl_required permission context g request) := by
  constructor
  · intro h
    simp [acl_required, h]
  · intro h
    constructor
    · simp [acl_required, h]
    · simp [acl_required, h]

/-- Witness for C9 at concrete inputs: an Everyone-allow context grants "x"
to a request whose groups contain Everyone and the handler runs; a request
with `none` groups is forbidden and the outcome does not depend on the
handler. -/
theorem acl_required_spec_witness :
    acl_required "x" [(Permission.Allow, Group.Everyone, ["x"])]
      (fun _ : Request => (1 : Nat)) ⟨some {Group.Everyone}⟩ =
        HandlerOutcome.response 1 ∧
    (acl_required "x" [(Permission.Allow, Group.Everyone, ["x"])]
      (fun _ : Request => (1 : Nat)) ⟨none⟩ = HandlerOutcome.forbidden ∧
     acl_required "x" [(Permission.Allow, Group.Everyone, ["x"])]
      (fun _ : Request => (1 : Nat)) ⟨none⟩ =
      acl_required "x" [(Permission.Allow, Group.Everyone, ["x"])]
        (fun _ : Request => (2 : Nat)) ⟨none⟩) :=
  ⟨(acl_required_spec "x" [(Permission.Allow, Group.Everyone, ["x"])]
      ⟨some {Group.Everyone}⟩ (fun _ => 1) (fun _ => 2)).1 (by decide),
   (acl_required_spec "x" [(Permission.Allow, Group.Everyone, ["x"])]
      ⟨none⟩ (fun _ => 1) (fun _ => 2)).2 (by decide)⟩

/-- C10: with the corresponding middleware not installed, each per-request
entry point — `auth.get_auth`, `auth.remember`, `auth.forget`,
`acl.get_user_groups`, `autz.permit` — raises a `RuntimeError` naming the
missing middleware rather than returning a none/deny result. -/
theorem no_middleware_runtime_error (now : Nat) (s : Session)
    (identity : List Nat) (uid : Option String) (raw : Option (List String))
    (permission : String) (localContext : Option (List AclTuple)) :
    auth_get_auth none now s =
      Except.error "auth_middleware not installed" ∧
    auth_remember none now s identity =
      Except.error "auth_middleware not installed" ∧
    auth_forget none s = Except.error "auth_middleware not installed" ∧
    acl_get_user_groups none uid =
      Except.error "acl_middleware not installed" ∧
    autz_permit none uid raw permission localContext =
      Except.error "autz_middleware not installed." :=
  ⟨rfl, rfl, rfl, rfl, rfl⟩

theorem encTime_length (t : Nat) : (encTime t).length = 8 := rfl

theorem decTime_encTime (t : Nat) : decTime (encTime t) = t % 2 ^ 64 := by
  simp only [decTime, encTime, List.foldl]
  omega

theorem flip_ne (b k : Nat) : b ^^^ (1 <<< k) ≠ b := by
  intro h
  have h1 : b ^^^ (b ^^^ (1 <<< k)) = b ^^^ b := congrArg (fun x => b ^^^ x) h
  rw [Nat.xor_cancel_left, Nat.xor_self, Nat.one_shiftLeft] at h1
  have h2 : (2 : Nat) ^ k ≠ 0 := by positivity
  exact h2 h1

theorem drop_set_of_lt {α : Type} (l : List α) (i n : Nat) (a : α)
    (h : i < n) : (l.set i a).drop n = l.drop n := by
  apply List.ext_getElem (by simp)
  intro j hj1 hj2
  have hb : n + j < (l.set i a).length := by
    simp only [List.length_drop, List.length_set] at hj1 ⊢
    omega
  simp only [List.getElem_drop]
  exact List.getElem_set_ne (show i ≠ n + j by omega) hb

theorem take_set_of_le {α : Type} (l : List α) (i n : Nat) (a : α)
    (h : n ≤ i) : (l.set i a).take n = l.take n := by
  apply List.ext_getElem (by simp)
  intro j hj1 hj2
  have hb : j < (l.set i a).length := by
    simp only [List.length_take, List.length_set] at hj1 ⊢
    omega
  have hj : j < n := by
    simp only [List.length_take, List.length_set] at hj1
    omega
  simp only [List.getElem_take]
  exact List.getElem_set_ne (show i ≠ j by omega) hb

theorem set_take_ne {α : Type} (l : List α) (i n : Nat) (a : α)
    (hi : i < l.length) (hn : i < n) (ha : a ≠ l[i]) :
    (l.set i a).take n ≠ l.take n := by
  intro heq
  have h2 := congrArg (fun xs : List α => xs[i]?) heq
  simp only [List.getElem?_take_of_lt hn, List.getElem?_set_self hi,
    List.getElem?_eq_getElem hi] at h2
  exact ha (Option.some.inj h2)

theorem parseTok_issue (A : TktAuthentication) (t : Nat) (id : List Nat)
    (Hlen : (A.mac A.secret (encTime t ++ id)).length = A.sigLen) :
    parseTok A (issue A t id) =
      some (A.mac A.secret (encTime t ++ id), encTime t, id) := by
  have hlen_tok : (issue A t id).length = A.sigLen + (8 + id.length) := by
    simp only [issue, List.length_append, Hlen, encTime_length]
  have h1 : (issue A t id).take A.sigLen = A.mac A.secret (encTime t ++ id) :=
    List.take_left' Hlen
  have h2 : (issue A t id).drop A.sigLen = encTime t ++ id :=
    List.drop_left' Hlen
  have h3 : ((issue A t id).drop A.sigLen).take 8 = encTime t := by
    rw [h2]
    exact List.take_left' rfl
  have h4 : (issue A t id).drop (A.sigLen + 8) = id := by
    rw [← List.drop_drop, h2]
    exact List.drop_left' rfl
  unfold parseTok
  rw [if_pos (by omega), h1, h3, h4]

theorem validate_issue (A : TktAuthentication) (t now : Nat) (id : List Nat)
    (Hlen : ∀ m, (A.mac A.secret m).length = A.sigLen)
    (Ht : t < 2 ^ 64) (Hfresh : now - t ≤ A.max_age) :
    validate A now (issue A t id) = some id := by
  have hcond : now - decTime (encTime t) ≤ A.max_age := by
    rw [decTime_encTime, Nat.mod_eq_of_lt Ht]
    exact Hfresh
  simp [validate, parseTok_issue A t id (Hlen _), hcond]

theorem validate_eq_none_iff (A : TktAuthentication) (now : Nat)
    (tok : List Nat) :
    validate A now tok = none ↔
      parseTok A tok = none ∨
      ∃ sig tb id, parseTok A tok = some (sig, tb, id) ∧
        (sig ≠ A.mac A.secret (tb ++ id) ∨ A.max_age < now - decTime tb) := by
  cases h : parseTok A tok with
  | none => simp [validate, h]
  | some x =>
    obtain ⟨sig, tb, id⟩ := x
    constructor
    · intro hn
      by_cases h1 : sig = A.mac A.secret (tb ++ id)
      · by_cases h2 : now - decTime tb ≤ A.max_age
        · exfalso
          have hsome : validate A now tok = some id := by
            simp only [validate, h]
            rw [if_pos ⟨h1, h2⟩]
          rw [hsome] at hn
          exact Option.noConfusion hn
        · exact Or.inr ⟨sig, tb, id, rfl, Or.inr (by omega)⟩
      · exact Or.inr ⟨sig, tb, id, rfl, Or.inl h1⟩
    · intro hOr
      simp only [validate, h]
      rcases hOr with hp | ⟨s', t', i', hp, hbad⟩
      · exact Option.noConfusion hp
      · have hinj := Option.some.inj hp
        injection hinj with hs hrest
        injection hrest with ht hi
        subst hs
        subst ht
        subst hi
        have hneg : ¬(sig = A.mac A.secret (tb ++ id) ∧
            now - decTime tb ≤ A.max_age) := by
          rintro ⟨hc1, hc2⟩
          rcases hbad with hb | hb
          · exact hb hc1
          · omega
        rw [if_neg hneg]

/-- C3: `validate` returns `none` exactly when parsing fails, the recomputed
MAC over the embedded payload mismatches the embedded signature, or
`now - issue_time > max_age`, and otherwise returns the embedded identity;
`validate` is a total function of the raw token (fails closed, no
exception).  Moreover flipping any bit of an issued token makes `validate`
return `none`: unconditionally for a flip inside the signature field, and
for a flip in the payload provided the MAC of the tampered payload differs
from the MAC of the original payload (the collision-freedom the spec assumes
of HMAC). -/
theorem validate_fail_closed (A : TktAuthentication) (now : Nat)
    (Hlen : ∀ m, (A.mac A.secret m).length = A.sigLen) :
    (∀ tok, validate A now tok = none ↔
        parseTok A tok = none ∨
        ∃ sig tb id, parseTok A tok = some (sig, tb, id) ∧
          (sig ≠ A.mac A.secret (tb ++ id) ∨ A.max_age < now - decTime tb)) ∧
    (∀ tok sig tb id, parseTok A tok = some (sig, tb, id) →
        sig = A.mac A.secret (tb ++ id) → now - decTime tb ≤ A.max_age →
        validate A now tok = some id) ∧
    (∀ t id i k, i < (issue A t id).length →
        (i < A.sigLen ∨
          A.mac A.secret ((flipBit (issue A t id) i k).drop A.sigLen) ≠
            A.mac A.secret ((issue A t id).drop A.sigLen)) →
        validate A now (flipBit (issue A t id) i k) = none) := by
  refine ⟨validate_eq_none_iff A now, ?_, ?_⟩
  · intro tok sig tb id hp h1 h2
    simp only [validate, hp]
    rw [if_pos ⟨h1, h2⟩]
  · intro t id i k hi hcase
    have hm : (A.mac A.secret (encTime t ++ id)).length = A.sigLen := Hlen _
    have hlen_tok : (issue A t id).length = A.sigLen + (8 + id.length) := by
      simp only [issue, List.length_append, hm, encTime_length]
    have hflip_len : (flipBit (issue A t id) i k).length =
        (issue A t id).length := by
      simp [flipBit]
    have hparse : parseTok A (flipBit (issue A t id) i k) =
        some ((flipBit (issue A t id) i k).take A.sigLen,
          ((flipBit (issue A t id) i k).drop A.sigLen).take 8,
          (flipBit (issue A t id) i k).drop (A.sigLen + 8)) := by
      unfold parseTok
      rw [if_pos (by omega)]
    have hsplit : ((flipBit (issue A t id) i k).drop A.sigLen).take 8 ++
        (flipBit (issue A t id) i k).drop (A.sigLen + 8) =
        (flipBit (issue A t id) i k).drop A.sigLen := by
      rw [← List.drop_drop]
      exact List.take_append_drop 8 _
    have htok_drop : (issue A t id).drop A.sigLen = encTime t ++ id :=
      List.drop_left' hm
    have htok_take : (issue A t id).take A.sigLen =
        A.mac A.secret (encTime t ++ id) :=
      List.take_left' hm
    have hne : (flipBit (issue A t id) i k).take A.sigLen ≠
        A.mac A.secret (((flipBit (issue A t id) i k).drop A.sigLen).take 8 ++
          (flipBit (issue A t id) i k).drop (A.sigLen + 8)) := by
      rw [hsplit]
      by_cases hreg : i < A.sigLen
      · have hpayload : (flipBit (issue A t id) i k).drop A.sigLen =
            (issue A t id).drop A.sigLen :=
          drop_set_of_lt _ i A.sigLen _ hreg
        rw [hpayload, htok_drop]
        have hgetd : (issue A t id).getD i 0 = (issue A t id)[i] := by
          simp [List.getD_eq_getElem?_getD, List.getElem?_eq_getElem hi]
        have hflipne : (issue A t id).getD i 0 ^^^ (1 <<< k) ≠
            (issue A t id)[i] := by
          rw [hgetd]
          exact flip_ne _ k
        have := set_take_ne (issue A t id) i A.sigLen
          ((issue A t id).getD i 0 ^^^ (1 <<< k)) hi hreg hflipne
        rw [htok_take] at this
        exact this
      · rcases hcase with hcase | hcase
        · exact absurd hcase hreg
        · have hsig : (flipBit (issue A t id) i k).take A.sigLen =
              (issue A t id).take A.sigLen :=
            take_set_of_le _ i A.sigLen _ (by omega)
          rw [hsig, htok_take, ← htok_drop]
          exact fun h => hcase h.symm
    simp only [validate, hparse]
    exact if_neg (fun hC => hne hC.1)

/-- Witness for C3 at concrete inputs: on the toy policy, flipping the low
bit of the signature byte of a freshly issued token makes `validate` return
`none`, while the untampered token validates to its identity. -/
theorem validate_fail_closed_witness :
    validate toyA 0 (flipBit (issue toyA 0 [5]) 0 0) = none ∧
    validate toyA 0 (issue toyA 0 [5]) = some [5] := by
  have h := validate_fail_closed toyA 0 (fun _ => rfl)
  refine ⟨h.2.2 0 [5] 0 0 (by decide) (Or.inl (by decide)), ?_⟩
  exact h.2.1 (issue toyA 0 [5]) (toyA.mac toyA.secret (encTime 0 ++ [5]))
    (encTime 0) [5] (by decide) (by decide) (by decide)

/-- C4: validating a token immediately after issuance (same secret, within
`max_age`) returns exactly the issued identity, and at the public interface
a `get_auth` following `remember(request, i)` returns `i`. -/
theorem remember_get_auth_roundtrip (A : TktAuthentication) (t now : Nat)
    (id : List Nat) (s : Session)
    (Hlen : ∀ m, (A.mac A.secret m).length = A.sigLen)
    (_Hid : id ≠ [])
    (Ht : t < 2 ^ 64) (Hnow : now < 2 ^ 64)
    (Hfresh : now - t ≤ A.max_age) :
    validate A now (issue A t id) = some id ∧
    get_auth A now (remember A now s id) = some id := by
  refine ⟨validate_issue A t now id Hlen Ht Hfresh, ?_⟩
  simp only [get_auth, remember, Option.bind]
  exact validate_issue A now now id Hlen Hnow (by omega)

/-- Witness for C4 at concrete inputs: the toy policy round-trips the
identity byte string both through the bare codec and through
`remember` / `get_auth`. -/
theorem remember_get_auth_roundtrip_witness :
    validate toyA 3 (issue toyA 0 [5]) = some [5] ∧
    get_auth toyA 3 (remember toyA 3 ⟨none⟩ [5]) = some [5] :=
  remember_get_auth_roundtrip toyA 0 3 [5] ⟨none⟩ (fun _ => rfl)
    (by decide) (by decide) (by decide) (by decide)

/-- C7: for a currently valid ticket, `should_reissue` is true exactly when
the remaining validity `max_age - (now - issue_time)` is strictly below
`reissue_time` (in particular false while it is at least `reissue_time`);
and a reissued token carries the same identity with a fresh issue time. -/
theorem should_reissue_spec (A : TktAuthentication) (now : Nat)
    (tok sig tb id : List Nat)
    (Hparse : parseTok A tok = some (sig, tb, id))
    (Hvalid : validate A now tok = some id)
    (Hlen : ∀ m, (A.mac A.secret m).length = A.sigLen) :
    (should_reissue A now tok = true ↔
      A.max_age - (now - decTime tb) < A.reissue_time) ∧
    (A.reissue_time ≤ A.max_age - (now - decTime tb) →
      should_reissue A now tok = false) ∧
    (∀ now2 : Nat, now2 < 2 ^ 64 →
      validate A now2 (issue A now2 id) = some id ∧
      parseTok A (issue A now2 id) =
        some (A.mac A.secret (encTime now2 ++ id), encTime now2, id) ∧
      decTime (encTime now2) = now2) := by
  have hiff : should_reissue A now tok = true ↔
      A.max_age - (now - decTime tb) < A.reissue_time := by
    simp [should_reissue, Hparse, Hvalid]
  refine ⟨hiff, ?_, ?_⟩
  · intro hrem
    cases hb : should_reissue A now tok with
    | false => rfl
    | true => exact absurd (hiff.mp hb) (by omega)
  · intro now2 hnow2
    exact ⟨validate_issue A now2 now2 id Hlen hnow2 (by omega),
      parseTok_issue A now2 id (Hlen _),
      by rw [decTime_encTime, Nat.mod_eq_of_lt hnow2]⟩

/-- Witness for C7 at concrete inputs: on the toy policy a valid ticket of
age 4 (remaining life 6 ≥ reissue_time 3) is not reissued, and a reissue at
time 7 carries the same identity. -/
theorem should_reissue_spec_witness :
    should_reissue toyA 4 (issue toyA 0 [5]) = false ∧
    validate toyA 7 (issue toyA 7 [5]) = some [5] := by
  have h := should_reissue_spec toyA 4 (issue toyA 0 [5])
    (toyA.mac toyA.secret (encTime 0 ++ [5])) (encTime 0) [5]
    (by decide) (by decide) (fun _ => rfl)
  exact ⟨h.2.1 (by decide), (h.2.2 7 (by decide)).1⟩

end AiohttpAuth
